import Mathlib

/-!
Verification development for xorfs (src/xorfs.c), a FUSE filesystem that
exposes XOR-delta backup chains as reconstructed plain files.

The C program is shallowly embedded as follows.

* File names are `List Char` (the C works on NUL-terminated `char*`;
  only well-formed names reach the parsing logic, since directory
  entries are filtered by extension first).
* The in-line name-parsing block of `xorfs_open_source_files`
  (src/xorfs.c:546-677) is embedded as `parseName`.  All malformed-name
  branches in C share the single error code `return_value = 5`, so the
  parser is modelled as an `Option`.
* The load loop plus the link-resolution pass of
  `xorfs_open_source_files` (src/xorfs.c:401-726) is `build`:
  directory entries are filtered by the `.xor` extension check
  (src/xorfs.c:434-439), each admitted name is parsed, and afterwards
  every nonzero `xor_against_number` is resolved to the index of the
  first matching entry (src/xorfs.c:683-714), an index standing for the
  C pointer into the entry array.  I/O failures of `opendir`, `fopen`,
  `fstat` and `malloc` are environment failures and are not modelled;
  file contents and stat data play no role in the build logic.
* `xorfs_read_backup` (src/xorfs.c:194-285) is embedded over an
  inductive `Entry`: a resolved chain unfolded from the target entry
  back to a base entry (`xor_against_number == 0`).  This is exactly the
  shape the C recursion walks through the `xor_against_source_file`
  pointers; a cyclic pointer chain has no `Entry` counterpart, matching
  the fact that the C recursion does not terminate on it.
* `xorfs_read_plain` (src/xorfs.c:178-192) does `fseek(SEEK_SET)` then
  `fread` on the entry's shared `FILE*`.  `readPlainSeq` embeds that
  cursor-mutating sequencing over `FileHandle`; the pure
  `xorfs_read_plain` below is the bytes it returns when run in
  isolation (offsets are naturals; the negative-offset `fseek` failure
  branch is unreachable from FUSE and not modelled).
* The XOR-combination block (src/xorfs.c:249-280) either XORs
  `uintmax_t`-sized groups (8 bytes, little-endian words in memory)
  when the requested size is divisible by the word size, or works
  byte-by-byte; both paths are embedded (`xorChunked`, `xorBytewise`,
  selection in `xorCombine`).  The C applies the combination to the
  full allocated buffers and returns the first `read_bytes` bytes;
  `xorfs_read_backup` below models that returned prefix, on which the
  two paths agree (proved as the refinement theorem).
-/

namespace Xorfs

/-- Coerce a string literal to the character list the model works on. -/
def str (s : String) : List Char := s.data

/-! ## Name parser -/

/-- Digit test from the parsing loop (src/xorfs.c:566). -/
def isDigitChar (c : Char) : Bool := decide ('0' ≤ c ∧ c ≤ '9')

/-- Value of a run of decimal digits, as `strtol` accumulates it
(src/xorfs.c:609, src/xorfs.c:623; values are modelled unbounded, the C
truncation to `unsigned int` is irrelevant to the claims). -/
def digitsVal (cs : List Char) : Nat :=
  cs.foldl (fun acc c => acc * 10 + (c.toNat - 48)) 0

/-- Result of parsing one source file name: the fields of
`struct xorfs_backup` that the name determines (src/xorfs.c:48-55). -/
structure ParsedName where
  chainName : List Char
  number : Nat
  xorAgainstNumber : Nat
  outputFileName : List Char
deriving DecidableEq, Repr

/-! ### Name-parsing block of `xorfs_open_source_files`
(src/xorfs.c:550-673).

* `pre` is everything before the first digit; no digit at all is the
  "Unable to find first number" error (src/xorfs.c:573).
* `chainName` drops one trailing character from `pre` — the dash —
  regardless of what that character is (src/xorfs.c:587).  (For a name
  whose first character is a digit the C computes `name_end_offset =
  -1` and invokes undefined behaviour; the model takes the empty name.)
* the first digit run is `number` (src/xorfs.c:609).
* after it, `x` starts a second `strtol`: the C only checks `errno`,
  which `strtol` does not set when no digits are present, so an empty
  run yields `xor_against_number = 0` with the scan position unmoved
  (src/xorfs.c:617-632); `.` directly means a plain image
  (src/xorfs.c:634-640); anything else errors (src/xorfs.c:641-646).
* the character at the final scan position must be `.`
  (src/xorfs.c:650-655).
* `outputFileName` is the name up to the character following the first
  digit run, with `.dat` appended (src/xorfs.c:657-672).

The scan components are split out as `namePre`, `nameAfterPre`,
`nameDigits`, `nameRest`, `nameOutput` below; `parseName` assembles
them. -/

/-- Characters before the first digit (the scan loop,
src/xorfs.c:561-583). -/
def namePre (name : List Char) : List Char :=
  name.takeWhile (fun c => !(isDigitChar c))

/-- The name from its first digit on. -/
def nameAfterPre (name : List Char) : List Char :=
  name.dropWhile (fun c => !(isDigitChar c))

/-- The first digit run, which `strtol` consumes as the sequence
number (src/xorfs.c:609). -/
def nameDigits (name : List Char) : List Char :=
  (nameAfterPre name).takeWhile isDigitChar

/-- The scan position after the first number, `xOrDot`
(src/xorfs.c:609). -/
def nameRest (name : List Char) : List Char :=
  (nameAfterPre name).dropWhile isDigitChar

/-- The output file name: everything up to the character following the
first digit run, with `.dat` appended (src/xorfs.c:667-669). -/
def nameOutput (name : List Char) : List Char :=
  namePre name ++ nameDigits name ++ ('.' :: 'd' :: 'a' :: 't' :: [])

def parseName (name : List Char) : Option ParsedName :=
  match nameAfterPre name with
  | [] => none
  | _ :: _ =>
    match nameRest name with
    | 'x' :: rest2 =>
      match rest2.dropWhile isDigitChar with
      | '.' :: _ =>
        some ⟨(namePre name).dropLast, digitsVal (nameDigits name),
              digitsVal (rest2.takeWhile isDigitChar), nameOutput name⟩
      | _ => none
    | '.' :: _ =>
      some ⟨(namePre name).dropLast, digitsVal (nameDigits name), 0,
            nameOutput name⟩
    | _ => none

/-! ## Chain graph builder -/

/-- One loaded entry: the source file name plus its parsed backup
metadata (`struct xorfs_source_file`, src/xorfs.c:57-62; the open
handle and stat data carry no build logic and are not modelled). -/
structure SourceFile where
  name : List Char
  parsed : ParsedName
deriving DecidableEq, Repr

/-- Extension filter (src/xorfs.c:433-439): the name must be strictly
longer than `.xor` and end with it. -/
def endsWithXor (name : List Char) : Bool :=
  decide (4 < name.length ∧
    name.drop (name.length - 4) = '.' :: 'x' :: 'o' :: 'r' :: [])

/-- Build-time failures.  All name errors in C share `return_value = 5`
(`malformedName`); an unresolved predecessor is `return_value = 6`
(src/xorfs.c:707-710). -/
inductive LoadError where
  | malformedName (name : List Char)
  | brokenChain (chain : List Char) (number : Nat) (missing : Nat)
deriving DecidableEq, Repr

/-- The directory scan loop (src/xorfs.c:419-681): admitted entries are
parsed in order, the first malformed name aborts the build. -/
def loadEntries : List (List Char) → Except LoadError (List SourceFile)
  | [] => .ok []
  | name :: rest =>
    if endsWithXor name then
      match parseName name with
      | none => .error (.malformedName name)
      | some p =>
        match loadEntries rest with
        | .error e => .error e
        | .ok fs => .ok (⟨name, p⟩ :: fs)
    else loadEntries rest

/-- First-match scan with its running index, the shape of every lookup
loop in the C (src/xorfs.c:93-99, src/xorfs.c:357-363). -/
def lookupAux (p : SourceFile → Bool) : List SourceFile → Nat → Option Nat
  | [], _ => none
  | f :: fs, i => if p f then some i else lookupAux p fs (i + 1)

/-- `get_source_file_by_backup_name_and_number` (src/xorfs.c:355-367):
index of the first entry with the requested backup number and chain
name; the returned index stands for the returned pointer. -/
def get_source_file_by_backup_name_and_number
    (files : List SourceFile) (nm : List Char) (num : Nat) : Option Nat :=
  lookupAux
    (fun f => decide (f.parsed.number = num ∧ f.parsed.chainName = nm))
    files 0

/-- `xorfs_get_source_file_by_file_name` (src/xorfs.c:91-103): index of
the first entry whose output file name matches. -/
def xorfs_get_source_file_by_file_name
    (files : List SourceFile) (req : List Char) : Option Nat :=
  lookupAux (fun f => decide (f.parsed.outputFileName = req)) files 0

/-- The link-resolution pass (src/xorfs.c:683-714): for each entry in
order, a zero `xor_against_number` stays a base entry, otherwise the
predecessor is looked up among all loaded entries; the first missing
predecessor aborts with the broken-chain error. -/
def resolveLinks (all : List SourceFile) :
    List SourceFile → Except LoadError (List (Option Nat))
  | [] => .ok []
  | f :: fs =>
    if f.parsed.xorAgainstNumber = 0 then
      match resolveLinks all fs with
      | .error e => .error e
      | .ok rest => .ok (none :: rest)
    else
      match get_source_file_by_backup_name_and_number all
          f.parsed.chainName f.parsed.xorAgainstNumber with
      | none =>
        .error (.brokenChain f.parsed.chainName f.parsed.number
          f.parsed.xorAgainstNumber)
      | some i =>
        match resolveLinks all fs with
        | .error e => .error e
        | .ok rest => .ok (some i :: rest)

/-- The finished graph: loaded entries plus, for each, the index of its
resolved predecessor (`xor_against_source_file`), `none` for a base. -/
structure Graph where
  files : List SourceFile
  preds : List (Option Nat)
deriving DecidableEq, Repr

/-- `xorfs_open_source_files` (src/xorfs.c:401-726): load all admitted
entries, then resolve every predecessor link. -/
def build (dir : List (List Char)) : Except LoadError Graph :=
  match loadEntries dir with
  | .error e => .error e
  | .ok files =>
    match resolveLinks files files with
    | .error e => .error e
    | .ok preds => .ok ⟨files, preds⟩

/-- Entries reachable through a build result: a failed build exposes
nothing (`main` exits before `fuse_main`, src/xorfs.c:740-744). -/
def servedEntries : Except LoadError Graph → List SourceFile
  | .ok g => g.files
  | .error _ => []

/-! ## Reconstruction engine -/

/-- A resolved backup entry together with its (already resolved)
predecessor chain: `base` is an entry with `xor_against_number == 0`,
`delta` one whose `xor_against_source_file` pointer leads to `pred`.
This is the unfolding along which `xorfs_read_backup` recurses; a
cyclic pointer chain has no counterpart here, just as the C recursion
never returns on one.  `data` is the byte content of the entry's own
`.xor` file (bytes as naturals below 256). -/
inductive Entry where
  | base (data : List Nat)
  | delta (data : List Nat) (pred : Entry)
deriving DecidableEq, Repr

/-- Per-request read failures.  The C returns `-EIO` when the
predecessor supplies fewer bytes than the current level obtained
(src/xorfs.c:241-246); `-EINVAL`/`-ENOMEM` are environment failures
(negative offset, allocation) outside the model. -/
inductive IoErr where
  | chainMismatch
deriving DecidableEq, Repr

/-- Bytes returned by `xorfs_read_plain` (src/xorfs.c:178-192) run in
isolation: position to `offset`, then `fread` up to `size` bytes. -/
def xorfs_read_plain (data : List Nat) (offset size : Nat) : List Nat :=
  (data.drop offset).take size

/-- Byte-by-byte XOR of two buffers (src/xorfs.c:268-279). -/
def xorBytewise (first second : List Nat) : List Nat :=
  List.zipWith (fun a b => a ^^^ b) first second

/-- A `uintmax_t` value assembled from its in-memory bytes
(little-endian, 8 bytes on the target). -/
def bytesToWord : List Nat → Nat
  | [] => 0
  | b :: bs => b + 256 * bytesToWord bs

/-- The in-memory bytes of a `uintmax_t` value (width `k` bytes). -/
def wordToBytes : Nat → Nat → List Nat
  | 0, _ => []
  | k + 1, w => w % 256 :: wordToBytes k (w / 256)

/-- The word-chunked XOR loop (src/xorfs.c:254-266): `k` word-sized
groups are combined, each as one `uintmax_t` XOR. -/
def xorChunkedAux : Nat → List Nat → List Nat → List Nat
  | 0, _, _ => []
  | k + 1, f, s =>
    wordToBytes 8 (bytesToWord (f.take 8) ^^^ bytesToWord (s.take 8)) ++
      xorChunkedAux k (f.drop 8) (s.drop 8)

/-- Word-chunked XOR over whole buffers: `size / sizeof(uintmax_t)`
chunks (src/xorfs.c:260). -/
def xorChunked (first second : List Nat) : List Nat :=
  xorChunkedAux (first.length / 8) first second

/-- The path selection of the XOR block (src/xorfs.c:251-280): word
chunks when the size divides evenly, else byte-by-byte. -/
def xorCombine (first second : List Nat) : List Nat :=
  if first.length % 8 = 0 then xorChunked first second
  else xorBytewise first second

/-- `xorfs_read_backup` (src/xorfs.c:194-285): read the entry's own
bytes; a base entry returns them directly (src/xorfs.c:211-217); a
delta entry recursively reads its predecessor at the same offset with
length equal to the byte count just obtained (src/xorfs.c:235), fails
with `-EIO` when the predecessor returns a different count
(src/xorfs.c:241-246), and otherwise returns the XOR combination.  The
C XORs the allocated buffers and returns the first `read_bytes` bytes
of the caller's buffer; the model carries exactly that returned
prefix, on which the chunked and bytewise paths agree byte for byte
(see the refinement theorem on `xorCombine`), so the prefix is the
bytewise XOR of the two `read_bytes`-byte reads. -/
def xorfs_read_backup : Entry → Nat → Nat → Except IoErr (List Nat)
  | .base d, offset, size => .ok (xorfs_read_plain d offset size)
  | .delta d p, offset, size =>
    let first := xorfs_read_plain d offset size
    match xorfs_read_backup p offset first.length with
    | .error e => .error e
    | .ok second =>
      if second.length = first.length then .ok (xorBytewise first second)
      else .error .chainMismatch

/-! ## Shared-handle read sequencing -/

/-- A `FILE*` stream: contents plus the mutable file position. -/
structure FileHandle where
  data : List Nat
  pos : Nat
deriving DecidableEq, Repr

/-- `fseek(fd, offset, SEEK_SET)` (src/xorfs.c:181). -/
def fseekSet (h : FileHandle) (offset : Nat) : FileHandle :=
  { h with pos := offset }

/-- `fread(buffer, 1, size, fd)` (src/xorfs.c:189): read up to `size`
bytes at the current position and advance it by the bytes read. -/
def freadBytes (h : FileHandle) (size : Nat) : List Nat × FileHandle :=
  let bs := (h.data.drop h.pos).take size
  (bs, { h with pos := h.pos + bs.length })

/-- `xorfs_read_plain` as the C executes it: seek-then-read on the
entry's shared handle, returning the bytes and the mutated handle. -/
def readPlainSeq (h : FileHandle) (offset size : Nat) :
    List Nat × FileHandle :=
  freadBytes (fseekSet h offset) size

/-- Two requests A and B against the same handle, interleaved as
seek A; seek B; read A; read B — a schedule the multithreaded FUSE
dispatch permits, since `xorfs_read_plain` performs no locking around
the seek-read pair.  Returns what each request's `fread` delivers. -/
def interleavedReads (h : FileHandle) (offA sizeA offB sizeB : Nat) :
    List Nat × List Nat :=
  let h1 := fseekSet h offA
  let h2 := fseekSet h1 offB
  let ra := freadBytes h2 sizeA
  let rb := freadBytes ra.2 sizeB
  (ra.1, rb.1)

/-! ## Helper lemmas -/

/-- Unfolding of `xorfs_read_backup` at a base entry. -/
lemma read_backup_base (d : List Nat) (off size : Nat) :
    xorfs_read_backup (.base d) off size = .ok (xorfs_read_plain d off size) := rfl

/-- Unfolding of `xorfs_read_backup` at a delta entry. -/
lemma read_backup_delta (d : List Nat) (p : Entry) (off size : Nat) :
    xorfs_read_backup (.delta d p) off size =
      match xorfs_read_backup p off (xorfs_read_plain d off size).length with
      | .error e => .error e
      | .ok second =>
        if second.length = (xorfs_read_plain d off size).length then
          .ok (xorBytewise (xorfs_read_plain d off size) second)
        else .error .chainMismatch := rfl

/-- Unfolding of the delta case when the predecessor read fails. -/
lemma read_backup_delta_error (d : List Nat) (p : Entry) (off size : Nat)
    (e : IoErr)
    (hrec : xorfs_read_backup p off (xorfs_read_plain d off size).length =
      .error e) :
    xorfs_read_backup (.delta d p) off size = .error e := by
  rw [read_backup_delta, hrec]

/-- Unfolding of the delta case when the predecessor read succeeds. -/
lemma read_backup_delta_ok (d : List Nat) (p : Entry) (off size : Nat)
    (second : List Nat)
    (hrec : xorfs_read_backup p off (xorfs_read_plain d off size).length =
      .ok second) :
    xorfs_read_backup (.delta d p) off size =
      if second.length = (xorfs_read_plain d off size).length then
        .ok (xorBytewise (xorfs_read_plain d off size) second)
      else .error .chainMismatch := by
  rw [read_backup_delta, hrec]

lemma xorfs_read_plain_length_le (d : List Nat) (off size : Nat) :
    (xorfs_read_plain d off size).length ≤ size := by
  simp [xorfs_read_plain]

/-- Any successful read returns at most the requested byte count. -/
lemma read_backup_length_le (e : Entry) :
    ∀ (off size : Nat) (bs : List Nat),
      xorfs_read_backup e off size = .ok bs → bs.length ≤ size := by
  induction e with
  | base d =>
    intro off size bs hbs
    rw [read_backup_base] at hbs
    cases hbs
    exact xorfs_read_plain_length_le d off size
  | delta d p ih =>
    intro off size bs hbs
    cases hrec : xorfs_read_backup p off (xorfs_read_plain d off size).length with
    | error e =>
      rw [read_backup_delta_error d p off size e hrec] at hbs
      cases hbs
    | ok second =>
      rw [read_backup_delta_ok d p off size second hrec] at hbs
      by_cases hlen : second.length = (xorfs_read_plain d off size).length
      · rw [if_pos hlen] at hbs
        cases hbs
        calc (xorBytewise (xorfs_read_plain d off size) second).length
            ≤ (xorfs_read_plain d off size).length := by
              simp [xorBytewise]
          _ ≤ size := xorfs_read_plain_length_le d off size
      · rw [if_neg hlen] at hbs
        cases hbs

/-- Per-byte XOR cancellation lifted to buffers: `(B ⊕ D) ⊕ B = D`. -/
lemma xorBytewise_cancel : ∀ (B D : List Nat), B.length = D.length →
    xorBytewise (xorBytewise B D) B = D := by
  intro B
  induction B with
  | nil =>
    intro D h
    cases D with
    | nil => rfl
    | cons x xs => cases h
  | cons b bs ih =>
    intro D h
    cases D with
    | nil => cases h
    | cons x xs =>
      have hlen : bs.length = xs.length := by simpa using h
      simp only [xorBytewise, List.zipWith] at *
      rw [Nat.xor_comm b x, Nat.xor_cancel_right, ih xs hlen]

/-- C1: a delta whose stored bytes are `B XOR D` over a base with
stored bytes `B` (all of length `L = B.length = D.length`) reads back
exactly `D` at offset 0 and length `L`. -/
theorem reconstruction_two_level (B D : List Nat) (h : B.length = D.length) :
    xorfs_read_backup (.delta (xorBytewise B D) (.base B)) 0 B.length = .ok D := by
  have hminBD : (xorBytewise B D).length = B.length := by
    simp [xorBytewise, h]
  have h1 : xorfs_read_plain (xorBytewise B D) 0 B.length = xorBytewise B D := by
    unfold xorfs_read_plain
    rw [List.drop_zero]
    exact List.take_of_length_le (le_of_eq hminBD)
  have h2 : xorfs_read_backup (.base B) 0 (xorfs_read_plain (xorBytewise B D) 0
      B.length).length = .ok B := by
    rw [read_backup_base, h1, hminBD]
    unfold xorfs_read_plain
    rw [List.drop_zero, List.take_length]
  rw [read_backup_delta_ok (xorBytewise B D) (.base B) 0 B.length B h2, h1,
    hminBD, if_pos rfl, xorBytewise_cancel B D h]

/-- C1 witness: a concrete two-level reconstruction. -/
theorem reconstruction_two_level_witness :
    xorfs_read_backup (.delta (xorBytewise [5, 7] [3, 200]) (.base [5, 7])) 0 2 =
      .ok [3, 200] :=
  reconstruction_two_level [5, 7] [3, 200] rfl

/-- C6: at a delta entry, with `n` the byte count the entry's own file
actually supplies for the request (possibly short at end-of-file), the
predecessor is read at the same offset with length exactly `n`; an
error from that read propagates; given the predecessor read succeeds,
it never supplies more than `n` bytes, the delta read fails with the
chain-mismatch error precisely when it supplies fewer than `n`, and
otherwise exactly `n` XOR-combined bytes are returned. -/
theorem delta_read_short_and_mismatch (d : List Nat) (p : Entry) (off len : Nat) :
    (∀ e, xorfs_read_backup p off (xorfs_read_plain d off len).length = .error e →
      xorfs_read_backup (.delta d p) off len = .error e) ∧
    (∀ bs, xorfs_read_backup p off (xorfs_read_plain d off len).length = .ok bs →
      bs.length ≤ (xorfs_read_plain d off len).length) ∧
    (∀ bs, xorfs_read_backup p off (xorfs_read_plain d off len).length = .ok bs →
      (xorfs_read_backup (.delta d p) off len = .error .chainMismatch ↔
        bs.length < (xorfs_read_plain d off len).length)) ∧
    (∀ bs, xorfs_read_backup p off (xorfs_read_plain d off len).length = .ok bs →
      bs.length = (xorfs_read_plain d off len).length →
      ∃ out, xorfs_read_backup (.delta d p) off len = .ok out ∧
        out.length = (xorfs_read_plain d off len).length) := by
  refine ⟨?_, ?_, ?_, ?_⟩
  · intro e he
    exact read_backup_delta_error d p off len e he
  · intro bs hbs
    exact read_backup_length_le p off _ bs hbs
  · intro bs hbs
    constructor
    · intro hfail
      rw [read_backup_delta_ok d p off len bs hbs] at hfail
      by_cases hlen : bs.length = (xorfs_read_plain d off len).length
      · rw [if_pos hlen] at hfail
        cases hfail
      · exact lt_of_le_of_ne (read_backup_length_le p off _ bs hbs) hlen
    · intro hlt
      rw [read_backup_delta_ok d p off len bs hbs, if_neg (Nat.ne_of_lt hlt)]
  · intro bs hbs hlen
    refine ⟨xorBytewise (xorfs_read_plain d off len) bs, ?_, ?_⟩
    · rw [read_backup_delta_ok d p off len bs hbs, if_pos hlen]
    · simp [xorBytewise, hlen]

/-- C6 witness: a base of one byte under a delta of two bytes, read
with length 2: the delta's own file supplies 2 bytes, the base only 1,
and the read fails with the chain-mismatch error. -/
theorem delta_read_short_and_mismatch_witness :
    xorfs_read_backup (.delta [1, 2] (.base [9])) 0 2 = .error .chainMismatch :=
  ((delta_read_short_and_mismatch [1, 2] (.base [9]) 0 2).2.2.1 [9] rfl).mpr
    (by decide)

lemma xor_mod_two_pow8 (u v : Nat) : (u ^^^ v) % 256 = u % 256 ^^^ v % 256 := by
  have h : (256 : Nat) = 2 ^ 8 := by norm_num
  rw [h, ← Nat.and_pow_two_sub_one_eq_mod, ← Nat.and_pow_two_sub_one_eq_mod,
    ← Nat.and_pow_two_sub_one_eq_mod, Nat.and_xor_distrib_right]

lemma xor_div_two_pow8 (u v : Nat) : (u ^^^ v) / 256 = u / 256 ^^^ v / 256 := by
  have h : (256 : Nat) = 2 ^ 8 := by norm_num
  rw [h, ← Nat.shiftRight_eq_div_pow, ← Nat.shiftRight_eq_div_pow,
    ← Nat.shiftRight_eq_div_pow]
  apply Nat.eq_of_testBit_eq
  intro i
  simp [Nat.testBit_shiftRight, Nat.testBit_xor]

lemma xor_lt_256 (a b : Nat) (ha : a < 256) (hb : b < 256) : a ^^^ b < 256 := by
  have h : (256 : Nat) = 2 ^ 8 := by norm_num
  rw [h] at ha hb ⊢
  exact Nat.xor_lt_two_pow ha hb

/-- XOR of two words splits into XOR of the low bytes and XOR of the
remaining higher bytes. -/
lemma byte_split (a b x y : Nat) (ha : a < 256) (hb : b < 256) :
    (a + 256 * x) ^^^ (b + 256 * y) = (a ^^^ b) + 256 * (x ^^^ y) := by
  have h1 : (a + 256 * x) % 256 = a := by
    rw [Nat.add_mul_mod_self_left, Nat.mod_eq_of_lt ha]
  have h2 : (a + 256 * x) / 256 = x := by
    rw [Nat.add_mul_div_left _ _ (by norm_num : (0 : Nat) < 256),
      Nat.div_eq_of_lt ha, Nat.zero_add]
  have h3 : (b + 256 * y) % 256 = b := by
    rw [Nat.add_mul_mod_self_left, Nat.mod_eq_of_lt hb]
  have h4 : (b + 256 * y) / 256 = y := by
    rw [Nat.add_mul_div_left _ _ (by norm_num : (0 : Nat) < 256),
      Nat.div_eq_of_lt hb, Nat.zero_add]
  calc (a + 256 * x) ^^^ (b + 256 * y)
      = ((a + 256 * x) ^^^ (b + 256 * y)) % 256 +
        256 * (((a + 256 * x) ^^^ (b + 256 * y)) / 256) := by
        rw [Nat.mod_add_div]
    _ = (a ^^^ b) + 256 * (x ^^^ y) := by
        rw [xor_mod_two_pow8, xor_div_two_pow8, h1, h2, h3, h4]

/-- One word-sized XOR, decomposed back into bytes, is the byte-wise
XOR of the word's bytes. -/
lemma wordToBytes_xor : ∀ (k : Nat) (f s : List Nat), f.length = k →
    s.length = k → (∀ b ∈ f, b < 256) → (∀ b ∈ s, b < 256) →
    wordToBytes k (bytesToWord f ^^^ bytesToWord s) =
      List.zipWith (fun a b => a ^^^ b) f s := by
  intro k
  induction k with
  | zero =>
    intro f s hf hs _ _
    rw [List.length_eq_zero.mp hf, List.length_eq_zero.mp hs]
    rfl
  | succ k ih =>
    intro f s hf hs hfb hsb
    cases f with
    | nil => cases hf
    | cons a f2 =>
      cases s with
      | nil => cases hs
      | cons b s2 =>
        have ha : a < 256 := hfb a (by simp)
        have hb : b < 256 := hsb b (by simp)
        have hxab : a ^^^ b < 256 := xor_lt_256 a b ha hb
        simp only [bytesToWord, wordToBytes, List.zipWith]
        rw [byte_split a b (bytesToWord f2) (bytesToWord s2) ha hb]
        rw [Nat.add_mul_mod_self_left, Nat.mod_eq_of_lt hxab]
        rw [Nat.add_mul_div_left _ _ (by norm_num : (0 : Nat) < 256),
          Nat.div_eq_of_lt hxab, Nat.zero_add]
        rw [ih f2 s2 (by simpa using hf) (by simpa using hs)
          (fun c hc => hfb c (by simp [hc])) (fun c hc => hsb c (by simp [hc]))]

/-- The chunk loop equals byte-wise XOR on buffers of exactly `8 * k`
bytes. -/
lemma xorChunkedAux_eq : ∀ (k : Nat) (f s : List Nat), f.length = 8 * k →
    s.length = f.length → (∀ b ∈ f, b < 256) → (∀ b ∈ s, b < 256) →
    xorChunkedAux k f s = xorBytewise f s := by
  intro k
  induction k with
  | zero =>
    intro f s hf hs _ _
    rw [List.length_eq_zero.mp (by omega : f.length = 0),
      List.length_eq_zero.mp (by omega : s.length = 0)]
    rfl
  | succ k ih =>
    intro f s hf hs hfb hsb
    have hf8 : (f.take 8).length = 8 := by rw [List.length_take]; omega
    have hs8 : (s.take 8).length = 8 := by rw [List.length_take]; omega
    simp only [xorChunkedAux]
    rw [wordToBytes_xor 8 (f.take 8) (s.take 8) hf8 hs8
      (fun c hc => hfb c (List.take_subset 8 f hc))
      (fun c hc => hsb c (List.take_subset 8 s hc))]
    rw [ih (f.drop 8) (s.drop 8) (by rw [List.length_drop]; omega)
      (by rw [List.length_drop, List.length_drop]; omega)
      (fun c hc => hfb c (List.drop_subset 8 f hc))
      (fun c hc => hsb c (List.drop_subset 8 s hc))]
    show List.zipWith (fun a b => a ^^^ b) (f.take 8) (s.take 8) ++
        xorBytewise (f.drop 8) (s.drop 8) = xorBytewise f s
    unfold xorBytewise
    conv_rhs => rw [← List.take_append_drop 8 f, ← List.take_append_drop 8 s]
    rw [List.zipWith_append _ _ _ _ _ (by rw [hf8, hs8])]

/-- C8: the choice between the word-chunked XOR path (taken when the
size divides evenly by the word size) and the byte-by-byte path never
changes the combined bytes: on equal-length byte buffers the selected
path always returns the byte-wise XOR. -/
theorem xor_chunking_equiv (f s : List Nat) (hlen : s.length = f.length)
    (hf : ∀ b ∈ f, b < 256) (hs : ∀ b ∈ s, b < 256) :
    xorCombine f s = xorBytewise f s := by
  unfold xorCombine
  by_cases hmod : f.length % 8 = 0
  · rw [if_pos hmod]
    unfold xorChunked
    exact xorChunkedAux_eq (f.length / 8) f s (by omega) hlen hf hs
  · rw [if_neg hmod]

/-- C8 witness: one full word, both paths agree. -/
theorem xor_chunking_equiv_witness :
    xorCombine [1, 2, 3, 4, 5, 6, 7, 255] [8, 9, 10, 11, 12, 13, 14, 128] =
      xorBytewise [1, 2, 3, 4, 5, 6, 7, 255] [8, 9, 10, 11, 12, 13, 14, 128] :=
  xor_chunking_equiv [1, 2, 3, 4, 5, 6, 7, 255] [8, 9, 10, 11, 12, 13, 14, 128]
    rfl (by decide) (by decide)

/-- `build` unfolded once the load phase's result is known. -/
lemma build_eq_of (dir : List (List Char)) (fs : List SourceFile)
    (hload : loadEntries dir = .ok fs) :
    build dir = match resolveLinks fs fs with
      | .error e => .error e
      | .ok preds => .ok ⟨fs, preds⟩ := by
  unfold build
  rw [hload]

/-- A successful build's entry list is exactly what the load phase
produced. -/
lemma build_ok_load (dir : List (List Char)) (g : Graph)
    (h : build dir = .ok g) : loadEntries dir = .ok g.files := by
  unfold build at h
  split at h
  · cases h
  · split at h
    · cases h
    · cases h
      assumption

/-- Every entry of a successful load phase carries the parse of its own
file name. -/
lemma loadEntries_parse : ∀ (dir : List (List Char)) (fs : List SourceFile),
    loadEntries dir = .ok fs → ∀ f ∈ fs, parseName f.name = some f.parsed := by
  intro dir
  induction dir with
  | nil =>
    intro fs h f hf
    cases h
    cases hf
  | cons name rest ih =>
    intro fs h f hf
    simp only [loadEntries] at h
    split at h
    · split at h
      · cases h
      · split at h
        · cases h
        · rename_i p hparse s2 fs2 hload2
          cases h
          cases hf with
          | head => exact hparse
          | tail _ hf => exact ih fs2 hload2 f hf
    · exact ih fs h f hf

/-- The entries of a successful load phase are exactly the admitted
directory entries, in order, one entry per file — no deduplication. -/
lemma loadEntries_names : ∀ (dir : List (List Char)) (fs : List SourceFile),
    loadEntries dir = .ok fs →
    fs.map (fun f => f.name) = dir.filter endsWithXor := by
  intro dir
  induction dir with
  | nil =>
    intro fs h
    cases h
    rfl
  | cons name rest ih =>
    intro fs h
    simp only [loadEntries] at h
    by_cases hx : endsWithXor name
    · rw [if_pos hx] at h
      split at h
      · cases h
      · split at h
        · cases h
        · cases h
          rename_i p hp fs2 hfs2
          simp only [List.map, List.filter, hx]
          rw [ih fs2 hfs2]
    · rw [if_neg hx] at h
      simp only [List.filter, Bool.of_not_eq_true hx]
      exact ih fs h

/-- C2 (code evaluation at the failing input): a directory holding the
single file `chain-1x1.xor` — a delta naming its own sequence number as
predecessor — builds successfully, with the entry's resolved
predecessor pointing back at the entry itself (index 0).  No cycle
validation exists and no `InvalidChain` error is raised; a read of the
entry would recurse through itself forever. -/
theorem self_referencing_chain_accepted :
    build [str ("chain-1x1.xor")] =
      .ok ⟨[⟨str ("chain-1x1.xor"),
            ⟨str ("chain"), 1, 1, str ("chain-1.dat")⟩⟩], [some 0]⟩ := rfl

/-- C7 (code evaluation at the failing input): the name `chain-1x.xor`,
whose `x` is followed by no digits, is not rejected: the second `strtol`
consumes nothing, leaves `errno` unset, returns 0, and the entry is
admitted as a base image with predecessor number 0 — the build succeeds
and serves it.  The C's own "Cannot read second number after x" error
branch (src/xorfs.c:624-629) is unreachable for this input because
`strtol` sets `errno` only on overflow, not on no-conversion. -/
theorem x_without_digits_admitted_as_base :
    build [str ("chain-1x.xor")] =
      .ok ⟨[⟨str ("chain-1x.xor"),
            ⟨str ("chain"), 1, 0, str ("chain-1.dat")⟩⟩], [none]⟩ := rfl

/-- C3 counterexample: the two distinct admitted source names
`chain-1.xor` (a base) and `chain-1x0.xor` (also parsed as a base,
since its explicit predecessor number is 0) build successfully into one
graph in which both entries carry the same external name
`chain-1.dat` — external-name uniqueness fails. -/
theorem external_name_collision :
    (build [str ("chain-1.xor"), str ("chain-1x0.xor")]).map
        (fun g => g.files.map (fun f => f.parsed.outputFileName)) =
      .ok [str ("chain-1.dat"), str ("chain-1.dat")] := rfl

/-- C4 counterexample: a directory with two entries sharing the
`(chain_name, sequence_number)` pair `(b, 7)` — the names `b-7.xor` and
`b-7x0.xor` — is not rejected: the build succeeds and loads both. -/
theorem duplicate_pair_accepted :
    (build [str ("b-7.xor"), str ("b-7x0.xor")]).map
        (fun g => g.files.map (fun f => (f.parsed.chainName, f.parsed.number))) =
      .ok [(str ("b"), 7), (str ("b"), 7)] := rfl

/-- C4 amended: the build performs no duplicate-key rejection at all:
in every successful build the loaded entries are exactly the admitted
directory entries in order, one entry per source file, even when
`(chain_name, sequence_number)` pairs coincide. -/
theorem no_duplicate_rejection (dir : List (List Char)) (g : Graph)
    (h : build dir = .ok g) :
    g.files.map (fun f => f.name) = dir.filter endsWithXor :=
  loadEntries_names dir g.files (build_ok_load dir g h)

/-- C4 amended witness: the duplicate-pair directory loads both files. -/
theorem no_duplicate_rejection_witness :
    ([⟨str ("b-7.xor"), ⟨str ("b"), 7, 0, str ("b-7.dat")⟩⟩,
      ⟨str ("b-7x0.xor"), ⟨str ("b"), 7, 0, str ("b-7.dat")⟩⟩] :
        List SourceFile).map (fun f => f.name) =
      [str ("b-7.xor"), str ("b-7x0.xor")].filter endsWithXor :=
  no_duplicate_rejection [str ("b-7.xor"), str ("b-7x0.xor")]
    ⟨[⟨str ("b-7.xor"), ⟨str ("b"), 7, 0, str ("b-7.dat")⟩⟩,
      ⟨str ("b-7x0.xor"), ⟨str ("b"), 7, 0, str ("b-7.dat")⟩⟩],
     [none, none]⟩ rfl

/-- If some loaded entry's nonzero predecessor number has no match
among the loaded entries, link resolution fails with the broken-chain
error. -/
lemma resolveLinks_error_of_missing (all : List SourceFile) :
    ∀ (l : List SourceFile),
    (∃ f ∈ l, f.parsed.xorAgainstNumber ≠ 0 ∧
      get_source_file_by_backup_name_and_number all f.parsed.chainName
        f.parsed.xorAgainstNumber = none) →
    ∃ c n m, resolveLinks all l = .error (.brokenChain c n m) := by
  intro l
  induction l with
  | nil =>
    rintro ⟨f, hf, _⟩
    cases hf
  | cons f fs ih =>
    rintro ⟨f0, hf0, hx0, hmiss0⟩
    simp only [resolveLinks]
    by_cases hfx : f.parsed.xorAgainstNumber = 0
    · cases hf0 with
      | head => exact absurd hfx hx0
      | tail _ hf0 =>
        obtain ⟨c, n, m, hres⟩ := ih ⟨f0, hf0, hx0, hmiss0⟩
        rw [if_pos hfx, hres]
        exact ⟨c, n, m, rfl⟩
    · rw [if_neg hfx]
      cases hfind : get_source_file_by_backup_name_and_number all
          f.parsed.chainName f.parsed.xorAgainstNumber with
      | none =>
        exact ⟨f.parsed.chainName, f.parsed.number,
          f.parsed.xorAgainstNumber, rfl⟩
      | some i =>
        cases hf0 with
        | head =>
          rw [hmiss0] at hfind
          cases hfind
        | tail _ hf0 =>
          obtain ⟨c, n, m, hres⟩ := ih ⟨f0, hf0, hx0, hmiss0⟩
          rw [hres]
          exact ⟨c, n, m, rfl⟩

/-- C5: when the load phase succeeds but some delta's nonzero
predecessor number matches no loaded entry of its chain, the whole
build fails with the broken-chain error and the failed build exposes no
entries — no partial graph is served.  (In the C, the failure path also
closes every opened handle via `xorfs_close_source_files`,
src/xorfs.c:720-721, before `main` exits without mounting.) -/
theorem broken_chain_fails_build (dir : List (List Char))
    (fs : List SourceFile) (f : SourceFile)
    (hload : loadEntries dir = .ok fs) (hmem : f ∈ fs)
    (hx : f.parsed.xorAgainstNumber ≠ 0)
    (hmiss : get_source_file_by_backup_name_and_number fs f.parsed.chainName
      f.parsed.xorAgainstNumber = none) :
    (∃ c n m, build dir = .error (.brokenChain c n m)) ∧
      servedEntries (build dir) = [] := by
  obtain ⟨c, n, m, hres⟩ :=
    resolveLinks_error_of_missing fs fs ⟨f, hmem, hx, hmiss⟩
  have hb : build dir = .error (.brokenChain c n m) := by
    rw [build_eq_of dir fs hload, hres]
  exact ⟨⟨c, n, m, hb⟩, by rw [hb]; rfl⟩

/-- C5 witness: a single delta `a-2x1.xor` whose predecessor `a-1` is
absent fails the build and leaves nothing served. -/
theorem broken_chain_fails_build_witness :
    (∃ c n m, build [str ("a-2x1.xor")] = .error (.brokenChain c n m)) ∧
      servedEntries (build [str ("a-2x1.xor")]) = [] :=
  broken_chain_fails_build [str ("a-2x1.xor")]
    [⟨str ("a-2x1.xor"), ⟨str ("a"), 2, 1, str ("a-2.dat")⟩⟩]
    ⟨str ("a-2x1.xor"), ⟨str ("a"), 2, 1, str ("a-2.dat")⟩⟩
    rfl (by simp) (by decide) rfl

/-- C9 counterexample: reads are not positioned; they are
seek-then-read on the entry's shared handle.  Interleaving two requests
(A at offset 0, B at offset 2) as seek A; seek B; read A; read B makes
request A return the byte at B's offset instead of the bytes a
positioned read of A's range yields. -/
theorem seek_read_interleaving_interferes :
    (interleavedReads ⟨[10, 11, 12, 13], 0⟩ 0 1 2 1).1 ≠
      xorfs_read_plain [10, 11, 12, 13] 0 1 := by decide

/-- C9 amended: `xorfs_read_plain` is implemented as `fseek(SEEK_SET)`
followed by `fread` on the entry's single shared handle — per-handle
seek-then-read sequencing over a mutable cursor, not a positioned read.
Run in isolation (no interleaving), it returns exactly the bytes of the
requested range; interleaved with a concurrent read on the same handle
it can return another request's range. -/
theorem sequential_read_is_positioned (h : FileHandle) (off size : Nat) :
    (readPlainSeq h off size).1 = xorfs_read_plain h.data off size := rfl

/-- The head surviving a `dropWhile` fails the predicate. -/
lemma dropWhile_head_false {p : Char → Bool} :
    ∀ {l : List Char} {c : Char} {cs : List Char},
      l.dropWhile p = c :: cs → p c = false := by
  intro l
  induction l with
  | nil =>
    intro c cs h
    cases h
  | cons a l2 ih =>
    intro c cs h
    by_cases hp : p a = true
    · rw [List.dropWhile_cons_of_pos hp] at h
      exact ih h
    · rw [List.dropWhile_cons_of_neg hp] at h
      cases h
      exact Bool.of_not_eq_true hp

/-- `takeWhile` stops exactly at the first failing character. -/
lemma takeWhile_all_append (q : Char → Bool) :
    ∀ (a : List Char) (c : Char) (b : List Char),
      (∀ x ∈ a, q x = true) → q c = false →
      (a ++ c :: b).takeWhile q = a := by
  intro a
  induction a with
  | nil =>
    intro c b _ hc
    simp only [List.nil_append]
    exact List.takeWhile_cons_of_neg (by simp [hc])
  | cons x a2 ih =>
    intro c b ha hc
    have hx : q x = true := ha x (by simp)
    simp only [List.cons_append]
    rw [List.takeWhile_cons_of_pos hx, ih c b (fun y hy => ha y (by simp [hy])) hc]

/-- Every successfully parsed name decomposes as a digit-free part
followed by a nonempty digit run, from which chain name, sequence
number and output name all derive. -/
lemma parseName_shape (name : List Char) (p : ParsedName)
    (h : parseName name = some p) :
    ∃ pre digits, (∀ c ∈ pre, isDigitChar c = false) ∧ digits ≠ [] ∧
      (∀ c ∈ digits, isDigitChar c = true) ∧
      p.chainName = pre.dropLast ∧ p.number = digitsVal digits ∧
      p.outputFileName = pre ++ digits ++ ('.' :: 'd' :: 'a' :: 't' :: []) := by
  have hpre : ∀ c ∈ namePre name, isDigitChar c = false := by
    intro c hc
    have := List.mem_takeWhile_imp hc
    simpa using this
  have hdig : ∀ c ∈ nameDigits name, isDigitChar c = true := fun c hc =>
    List.mem_takeWhile_imp hc
  have hne : nameAfterPre name ≠ [] → nameDigits name ≠ [] := by
    intro hna
    cases hafter : nameAfterPre name with
    | nil => exact absurd hafter hna
    | cons a l =>
      have ha : isDigitChar a = true := by
        have := dropWhile_head_false hafter
        simpa using this
      unfold nameDigits
      rw [hafter, List.takeWhile_cons_of_pos ha]
      exact List.cons_ne_nil a _
  unfold parseName at h
  split at h
  · cases h
  · split at h
    · split at h
      · cases h
        exact ⟨namePre name, nameDigits name, hpre,
          hne (by simp_all), hdig, rfl, rfl, rfl⟩
      · cases h
    · cases h
      exact ⟨namePre name, nameDigits name, hpre,
        hne (by simp_all), hdig, rfl, rfl, rfl⟩
    · cases h

/-- A list splits in only one way into a digit-free part followed by a
nonempty all-digit run. -/
lemma pre_digits_split_unique (pre1 d1 pre2 d2 : List Char)
    (hp1 : ∀ c ∈ pre1, isDigitChar c = false)
    (hd1 : d1 ≠ []) (ha1 : ∀ c ∈ d1, isDigitChar c = true)
    (hp2 : ∀ c ∈ pre2, isDigitChar c = false)
    (hd2 : d2 ≠ []) (ha2 : ∀ c ∈ d2, isDigitChar c = true)
    (heq : pre1 ++ d1 = pre2 ++ d2) : pre1 = pre2 ∧ d1 = d2 := by
  have h1 : (pre1 ++ d1).takeWhile (fun c => !(isDigitChar c)) = pre1 := by
    cases d1 with
    | nil => exact absurd rfl hd1
    | cons a l =>
      exact takeWhile_all_append _ pre1 a l
        (fun x hx => by simp [hp1 x hx]) (by simp [ha1 a (by simp)])
  have h2 : (pre2 ++ d2).takeWhile (fun c => !(isDigitChar c)) = pre2 := by
    cases d2 with
    | nil => exact absurd rfl hd2
    | cons a l =>
      exact takeWhile_all_append _ pre2 a l
        (fun x hx => by simp [hp2 x hx]) (by simp [ha2 a (by simp)])
  have hpre : pre1 = pre2 := by rw [← h1, heq, h2]
  refine ⟨hpre, ?_⟩
  rw [hpre] at heq
  exact List.append_cancel_left heq

/-- C3 amended: in every successfully built graph, two entries carry
the same `external_name` only if they already share the
`(chain_name, sequence_number)` pair; so `external_name` is unique
whenever those pairs are pairwise distinct.  The build itself does not
enforce distinct pairs, and distinct admitted source names (such as
`chain-1.xor` and `chain-1x0.xor`) can collide on both the pair and the
external name in one successful build. -/
theorem external_name_determines_key (dir : List (List Char)) (g : Graph)
    (hbuild : build dir = .ok g) :
    ∀ f1 ∈ g.files, ∀ f2 ∈ g.files,
      f1.parsed.outputFileName = f2.parsed.outputFileName →
      f1.parsed.chainName = f2.parsed.chainName ∧
        f1.parsed.number = f2.parsed.number := by
  intro f1 hf1 f2 hf2 hout
  have hp1 := loadEntries_parse dir g.files (build_ok_load dir g hbuild) f1 hf1
  have hp2 := loadEntries_parse dir g.files (build_ok_load dir g hbuild) f2 hf2
  obtain ⟨pre1, d1, hq1, hd1, ha1, hc1, hn1, ho1⟩ :=
    parseName_shape f1.name f1.parsed hp1
  obtain ⟨pre2, d2, hq2, hd2, ha2, hc2, hn2, ho2⟩ :=
    parseName_shape f2.name f2.parsed hp2
  have heq : pre1 ++ d1 = pre2 ++ d2 := by
    have h := hout
    rw [ho1, ho2] at h
    exact List.append_cancel_right h
  obtain ⟨hpre, hd⟩ :=
    pre_digits_split_unique pre1 d1 pre2 d2 hq1 hd1 ha1 hq2 hd2 ha2 heq
  constructor
  · rw [hc1, hc2, hpre]
  · rw [hn1, hn2, hd]

/-- C3 amended witness: applying the key-determination theorem to the
concrete colliding build of `a-1.xor` and `a-1x0.xor`. -/
theorem external_name_determines_key_witness :
    (⟨str ("a-1.xor"), ⟨str ("a"), 1, 0, str ("a-1.dat")⟩⟩ :
        SourceFile).parsed.chainName =
      (⟨str ("a-1x0.xor"), ⟨str ("a"), 1, 0, str ("a-1.dat")⟩⟩ :
        SourceFile).parsed.chainName ∧
    (⟨str ("a-1.xor"), ⟨str ("a"), 1, 0, str ("a-1.dat")⟩⟩ :
        SourceFile).parsed.number =
      (⟨str ("a-1x0.xor"), ⟨str ("a"), 1, 0, str ("a-1.dat")⟩⟩ :
        SourceFile).parsed.number :=
  external_name_determines_key [str ("a-1.xor"), str ("a-1x0.xor")]
    ⟨[⟨str ("a-1.xor"), ⟨str ("a"), 1, 0, str ("a-1.dat")⟩⟩,
      ⟨str ("a-1x0.xor"), ⟨str ("a"), 1, 0, str ("a-1.dat")⟩⟩],
     [none, none]⟩ rfl
    ⟨str ("a-1.xor"), ⟨str ("a"), 1, 0, str ("a-1.dat")⟩⟩ (by decide)
    ⟨str ("a-1x0.xor"), ⟨str ("a"), 1, 0, str ("a-1.dat")⟩⟩ (by decide) rfl

/-- A lookup scan returns `none` exactly when nothing matches. -/
lemma lookupAux_none_iff (p : SourceFile → Bool) :
    ∀ (l : List SourceFile) (i : Nat),
      lookupAux p l i = none ↔ ∀ f ∈ l, p f = false := by
  intro l
  induction l with
  | nil => intro i; simp [lookupAux]
  | cons f fs ih =>
    intro i
    simp only [lookupAux]
    by_cases hp : p f = true
    · rw [if_pos hp]
      simp [hp]
    · rw [if_neg hp]
      rw [ih (i + 1)]
      constructor
      · intro hall g hg
        cases hg with
        | head => exact Bool.of_not_eq_true hp
        | tail _ hg => exact hall g hg
      · intro hall g hg
        exact hall g (List.mem_cons_of_mem f hg)

/-- A lookup scan starting at index `i` that returns `some j` found the
match at offset `j - i`, and everything before it fails the
predicate. -/
lemma lookupAux_some (p : SourceFile → Bool) :
    ∀ (l : List SourceFile) (i j : Nat),
      lookupAux p l i = some j →
      ∃ k, j = i + k ∧ (∃ f, l[k]? = some f ∧ p f = true) ∧
        ∀ m, m < k → ∀ g, l[m]? = some g → p g = false := by
  intro l
  induction l with
  | nil =>
    intro i j h
    cases h
  | cons f fs ih =>
    intro i j h
    simp only [lookupAux] at h
    by_cases hp : p f = true
    · rw [if_pos hp] at h
      cases h
      exact ⟨0, by omega, ⟨f, by simp, hp⟩, fun m hm g _ => absurd hm (by omega)⟩
    · rw [if_neg hp] at h
      obtain ⟨k, hk, ⟨f2, hf2, hpf2⟩, hmin⟩ := ih (i + 1) j h
      refine ⟨k + 1, by omega, ⟨f2, by simpa using hf2, hpf2⟩, ?_⟩
      intro m hm g hg
      cases m with
      | zero =>
        have : g = f := by simpa using hg.symm
        rw [this]
        exact Bool.of_not_eq_true hp
      | succ m2 => exact hmin m2 (by omega) g (by simpa using hg)

/-- C10: both lookup loops — `xorfs_get_source_file_by_file_name` on
`external_name`, and `get_source_file_by_backup_name_and_number` on
`(chain_name, sequence_number)` — return the matching entry with the
lowest load index when one or more entries match (so resolution among
colliding entries is deterministic in load order) and a not-found
result exactly when none matches. -/
theorem lookup_first_match (files : List SourceFile) (req nm : List Char)
    (num : Nat) :
    (xorfs_get_source_file_by_file_name files req = none ↔
      ∀ f ∈ files, f.parsed.outputFileName ≠ req) ∧
    (∀ i, xorfs_get_source_file_by_file_name files req = some i →
      (∃ f, files[i]? = some f ∧ f.parsed.outputFileName = req) ∧
      ∀ j, j < i → ∀ g, files[j]? = some g →
        g.parsed.outputFileName ≠ req) ∧
    (get_source_file_by_backup_name_and_number files nm num = none ↔
      ∀ f ∈ files, ¬(f.parsed.number = num ∧ f.parsed.chainName = nm)) ∧
    (∀ i, get_source_file_by_backup_name_and_number files nm num = some i →
      (∃ f, files[i]? = some f ∧ f.parsed.number = num ∧
        f.parsed.chainName = nm) ∧
      ∀ j, j < i → ∀ g, files[j]? = some g →
        ¬(g.parsed.number = num ∧ g.parsed.chainName = nm)) := by
  refine ⟨?_, ?_, ?_, ?_⟩
  · rw [xorfs_get_source_file_by_file_name, lookupAux_none_iff]
    constructor
    · intro hall f hf
      have := hall f hf
      simpa using this
    · intro hall f hf
      simpa using hall f hf
  · intro i hi
    obtain ⟨k, hk, ⟨f, hf, hpf⟩, hmin⟩ :=
      lookupAux_some _ files 0 i hi
    have hki : k = i := by omega
    rw [hki] at hf hmin
    refine ⟨⟨f, hf, by simpa using hpf⟩, ?_⟩
    intro j hj g hg
    have := hmin j hj g hg
    simpa using this
  · rw [get_source_file_by_backup_name_and_number, lookupAux_none_iff]
    constructor
    · intro hall f hf
      have := hall f hf
      simpa using this
    · intro hall f hf
      simpa using hall f hf
  · intro i hi
    obtain ⟨k, hk, ⟨f, hf, hpf⟩, hmin⟩ :=
      lookupAux_some _ files 0 i hi
    have hki : k = i := by omega
    rw [hki] at hf hmin
    refine ⟨⟨f, hf, by simpa using hpf⟩, ?_⟩
    intro j hj g hg
    have := hmin j hj g hg
    simpa using this

/-- C10 witness: on a graph with two entries sharing external name
`a-1.dat`, the lookup returns index 0 and the entry there matches. -/
theorem lookup_first_match_witness :
    ∃ f, ([⟨str ("a-1.xor"), ⟨str ("a"), 1, 0, str ("a-1.dat")⟩⟩,
           ⟨str ("a-1x0.xor"), ⟨str ("a"), 1, 0, str ("a-1.dat")⟩⟩] :
           List SourceFile)[0]? = some f ∧
      f.parsed.outputFileName = str ("a-1.dat") :=
  ((lookup_first_match
      [⟨str ("a-1.xor"), ⟨str ("a"), 1, 0, str ("a-1.dat")⟩⟩,
       ⟨str ("a-1x0.xor"), ⟨str ("a"), 1, 0, str ("a-1.dat")⟩⟩]
      (str ("a-1.dat")) (str ("a")) 1).2.1 0 rfl).1

end Xorfs
